import Mathlib

/-!
Shallow embedding of `src/stock.rs` from the real-time-stock-system
repository, with theorems checking the specification's claims about it.

Modelling conventions:
* Rust `i32` values are embedded as `Int` (no arithmetic in the program
  approaches the `i32` range, all values stay far below `2^31`).
* `rand::thread_rng().gen_range(a..=b)` draws are parameters of the
  embedded functions, constrained by hypotheses `a ≤ x ∧ x ≤ b` where a
  claim depends on the range.
* The crossbeam channel seen by one broker worker is embedded as the
  `List` of updates that worker receives; an empty list models the
  "channel closed and empty" `recv` error.
* Rust `HashMap`s are embedded as association lists; the nondeterministic
  iteration order of a `HashMap` is captured by quantifying over the list
  order where it matters.
* `unreachable!()` and any panic is embedded as `Option.none` propagated
  through the computation.
-/

namespace StockSys

/-- `struct Stock` from stock.rs: a name, current value `v` and previous
value `prev_v`. -/
structure Stock where
  name : String
  v : Int
  prev_v : Int
  deriving DecidableEq, Repr

/-- `enum StockType` from stock.rs. -/
inductive StockType where
  | Tech
  | Food
  | Healthcare
  deriving DecidableEq, Repr

/-- `Stock::stock_type` from stock.rs: the name-to-sector lookup table.
The `_ => unreachable!()` fatal branch is embedded as `none`. -/
def stock_type (name : String) : Option StockType :=
  match name with
  | "AAPL" | "AMZN" | "GOOGL" | "MSFT" | "TSLA" | "FB" | "CRM" | "INTC" | "NVDA" | "WORK" | "FSLY" | "CRWD"
  | "DOCU" => some StockType.Tech
  | "KO" | "PEP" | "MCD" | "SBUX" | "GIS" | "HSY" | "KR" | "CPB" | "WMT" | "TGT" | "COST" | "PG" | "UN" | "SYY"
  | "FLO" | "WBA" => some StockType.Food
  | "MDLZ" | "MRK" | "AMGN" | "UNH" | "HCA" | "ANTM" | "DHR" | "ABT" | "TMO" | "REGN" | "ILMN" | "MDT" | "ZBH" | "VRTX"
  | "IDXX" | "DGX" => some StockType.Healthcare
  | _ => none

/-- The per-client preference tuple `(StockType, String, i32, i32)` used in
`client_preferences`: preferred sector, order category, `min_change_buy`,
`min_change_sell`. -/
structure ClientPref where
  stockType : StockType
  orderCategory : String
  min_change_buy : Int
  min_change_sell : Int
  deriving DecidableEq, Repr

/-- Association-list lookup, embedding `HashMap` reads. -/
def alGet (m : List (String × Int)) (k : String) : Option Int :=
  match m with
  | [] => none
  | (k', x) :: rest => if k' = k then some x else alGet rest k

/-- Embeds `*map.entry(k).or_insert(0) += d` on a `HashMap<String, i32>`:
add `d` to the entry of `k`, inserting `0` first when absent. -/
def alAdd (m : List (String × Int)) (k : String) (d : Int) : List (String × Int) :=
  match m with
  | [] => [(k, d)]
  | (k', x) :: rest => if k' = k then (k', x + d) :: rest else (k', x) :: alAdd rest k d

/-- The mutable state of one broker worker: `client_transactions` and
`client_earnings` from `process_broker_actions`. -/
structure BrokerState where
  counts : List (String × Int)
  earnings : List (String × Int)
  deriving DecidableEq, Repr

/-- The skip condition from `process_broker_actions` (the `continue`
guard): sector mismatch, or a non-Market client whose price change lies
strictly inside the open interval (-min_change_buy, min_change_sell). -/
def skipClient (sty : StockType) (pref : ClientPref) (price_change : Int) : Bool :=
  sty ≠ pref.stockType ∨
    (pref.orderCategory ≠ "Market" ∧
      (price_change > -pref.min_change_buy ∧ price_change < pref.min_change_sell))

/-- The order side strings `"buying"` / `"selling"` of stock.rs. -/
inductive OrderType where
  | buying
  | selling
  deriving DecidableEq, Repr

/-- The order-decision chain from `process_broker_actions`: the
`if`/`else if` setting `process_order` and `order_type`. -/
def decideOrder (pref : ClientPref) (stock : Stock) : Option OrderType :=
  let price_change := stock.v - stock.prev_v
  if (pref.orderCategory = "Market" ∨ price_change ≤ -pref.min_change_buy) ∧ stock.v < stock.prev_v then
    some OrderType.buying
  else if (pref.orderCategory = "Market" ∨ price_change ≥ pref.min_change_sell) ∧ stock.v > stock.prev_v then
    some OrderType.selling
  else
    none

/-- One client's processing of one received stock update, from the body of
the `for (client_name, ...) in &client_preferences` loop. `q` is the
`gen_range(10..=100)` quantity draw for this tick, per client. The
`if *count >= transaction_limit { continue; }` at the end of the loop
body is a no-op (the `continue` only ends the current iteration), so the
count update is unconditional here, exactly as in the code. A `none`
result embeds the `unreachable!()` panic in `stock_type`. -/
def processClient (stock : Stock) (q : String → Int) (cp : String × ClientPref)
    (st : BrokerState) : Option BrokerState :=
  match stock_type stock.name with
  | none => none
  | some sty =>
    let price_change := stock.v - stock.prev_v
    if skipClient sty cp.2 price_change then
      some st
    else
      match decideOrder cp.2 stock with
      | none => some st
      | some ot =>
        let quantity := q cp.1
        let earnings :=
          if ot = OrderType.selling then
            alAdd st.earnings cp.1 (quantity * (stock.v - stock.prev_v))
          else
            st.earnings
        some { counts := alAdd st.counts cp.1 1, earnings := earnings }

/-- One tick of a broker worker: fold `processClient` over the client
roster, in roster-iteration order. -/
def processTick (stock : Stock) (q : String → Int) :
    List (String × ClientPref) → BrokerState → Option BrokerState
  | [], st => some st
  | cp :: rest, st => (processClient stock q cp st).bind (processTick stock q rest)

/-- The `while client_transactions.values().any(|&v| v < transaction_limit)`
loop condition. -/
def anyBelow (limit : Int) (counts : List (String × Int)) : Bool :=
  counts.any (fun p => p.2 < limit)

/-- The worker loop of `process_broker_actions`. Each message pairs the
received stock with the quantity draws for that tick; an exhausted list
models `recv` returning `Err` (channel closed and empty), on which the
loop breaks. -/
def runLoop (limit : Int) (prefs : List (String × ClientPref)) :
    List (Stock × (String → Int)) → BrokerState → Option BrokerState
  | [], st => some st
  | msg :: rest, st =>
    if anyBelow limit st.counts then
      (processTick msg.1 msg.2 prefs st).bind (runLoop limit prefs rest)
    else
      some st

/-- The initial broker state: every roster client's transaction count is
`0` (`client_preferences.keys().map(|k| (k.clone(), 0)).collect()`), and
`client_earnings` starts empty. -/
def initState (prefs : List (String × ClientPref)) : BrokerState :=
  { counts := prefs.map (fun p => (p.1, 0)), earnings := [] }

/-- `process_broker_actions` end to end: run the loop from the initial
state and return the final `client_earnings` map. -/
def process_broker_actions (limit : Int) (prefs : List (String × ClientPref))
    (msgs : List (Stock × (String → Int))) : Option (List (String × Int)) :=
  (runLoop limit prefs msgs (initState prefs)).map (fun st => st.earnings)

/-- The per-instrument mutation of one generator tick, from the loop body
of `simulate_stock_changes`: save `prev_v = v`, then `v += delta` where
`delta` is the `gen_range(-40..=60)` draw. -/
def updateStock (s : Stock) (delta : Int) : Stock :=
  { s with prev_v := s.v, v := s.v + delta }

/-- One generator tick over the registry, from `simulate_stock_changes`:
update each instrument in order and send a snapshot; `deltas i` is the
random draw for the instrument at index `i`, and `k` is the number of
sends that succeed before the channel is found closed. On a failed send
the loop breaks: the failing instrument is already updated but not
published, and the rest of the registry is left untouched. Returns the
registry after the tick and the list of published snapshots. -/
def runTickAux (deltas : Nat → Int) (k : Nat) (i : Nat) :
    List Stock → List Stock × List Stock
  | [] => ([], [])
  | s :: rest =>
    let s' := updateStock s (deltas i)
    if i < k then
      let r := runTickAux deltas k (i + 1) rest
      (s' :: r.1, s' :: r.2)
    else
      (s' :: rest, [])

/-- One generator tick starting at index 0. -/
def runTick (deltas : Nat → Int) (k : Nat) (stocks : List Stock) :
    List Stock × List Stock :=
  runTickAux deltas k 0 stocks

/-- The initial Stock Registry of `run_simulation` (names and initial
values; each instrument starts with `prev_v = v`). -/
def initialRegistry : List Stock :=
  [⟨"AMZN", 200, 200⟩, ⟨"GOOGL", 120, 120⟩, ⟨"MSFT", 130, 130⟩, ⟨"TSLA", 300, 300⟩,
   ⟨"FB", 156, 156⟩, ⟨"CRM", 90, 90⟩, ⟨"INTC", 245, 245⟩, ⟨"NVDA", 187, 187⟩,
   ⟨"WORK", 65, 65⟩, ⟨"FSLY", 110, 110⟩, ⟨"CRWD", 125, 125⟩, ⟨"DOCU", 240, 240⟩,
   ⟨"NOW", 180, 180⟩, ⟨"PLTR", 95, 95⟩, ⟨"KO", 310, 310⟩, ⟨"PEP", 400, 400⟩,
   ⟨"MCD", 170, 170⟩, ⟨"SBUX", 200, 200⟩, ⟨"GIS", 67, 67⟩, ⟨"HSY", 276, 276⟩,
   ⟨"KR", 22, 22⟩, ⟨"CPB", 120, 120⟩, ⟨"PER", 400, 400⟩, ⟨"WMT", 150, 150⟩,
   ⟨"TGT", 90, 90⟩, ⟨"COST", 280, 280⟩, ⟨"PG", 200, 200⟩, ⟨"UN", 170, 170⟩,
   ⟨"SYY", 110, 110⟩, ⟨"FLO", 30, 30⟩, ⟨"WBA", 55, 55⟩, ⟨"MDLZ", 330, 330⟩,
   ⟨"MRK", 280, 280⟩, ⟨"AMGN", 430, 430⟩, ⟨"UNH", 120, 120⟩, ⟨"HCA", 88, 88⟩,
   ⟨"ANTM", 22, 22⟩, ⟨"DHR", 120, 120⟩, ⟨"ABT", 400, 400⟩, ⟨"TMO", 150, 150⟩,
   ⟨"REGN", 90, 90⟩, ⟨"ILMN", 280, 280⟩, ⟨"MDT", 200, 200⟩, ⟨"ZBH", 170, 170⟩,
   ⟨"VRTX", 110, 110⟩, ⟨"IDXX", 30, 30⟩, ⟨"DGX", 55, 55⟩]

/-- The spec's Buy trigger: (category is Market or priceChange ≤ -minChangeBuy)
and currentValue < previousValue. -/
def buyTrigger (pref : ClientPref) (stock : Stock) : Prop :=
  (pref.orderCategory = "Market" ∨ stock.v - stock.prev_v ≤ -pref.min_change_buy) ∧
    stock.v < stock.prev_v

/-- The spec's Sell trigger: (category is Market or priceChange ≥ minChangeSell)
and currentValue > previousValue. -/
def sellTrigger (pref : ClientPref) (stock : Stock) : Prop :=
  (pref.orderCategory = "Market" ∨ stock.v - stock.prev_v ≥ pref.min_change_sell) ∧
    stock.v > stock.prev_v

instance (pref : ClientPref) (stock : Stock) : Decidable (buyTrigger pref stock) :=
  inferInstanceAs (Decidable ((pref.orderCategory = "Market" ∨ stock.v - stock.prev_v ≤ -pref.min_change_buy) ∧ stock.v < stock.prev_v))

instance (pref : ClientPref) (stock : Stock) : Decidable (sellTrigger pref stock) :=
  inferInstanceAs (Decidable ((pref.orderCategory = "Market" ∨ stock.v - stock.prev_v ≥ pref.min_change_sell) ∧ stock.v > stock.prev_v))

/-- The order-decision chain is exactly: spec's Buy trigger first, else
spec's Sell trigger, else no order. -/
theorem decideOrder_eq (pref : ClientPref) (stock : Stock) :
    decideOrder pref stock =
      if buyTrigger pref stock then some OrderType.buying
      else if sellTrigger pref stock then some OrderType.selling
      else none := by
  unfold decideOrder buyTrigger sellTrigger
  rfl

/-- Boolean form of "every value in the map is non-negative". -/
def allNonnegB (m : List (String × Int)) : Bool :=
  m.all (fun p => decide (0 ≤ p.2))

theorem allNonnegB_iff (m : List (String × Int)) :
    allNonnegB m = true ↔ ∀ p ∈ m, 0 ≤ p.2 := by
  simp [allNonnegB]

theorem alGet_alAdd_self (m : List (String × Int)) (k : String) (d : Int) :
    alGet (alAdd m k d) k = some ((alGet m k).getD 0 + d) := by
  induction m with
  | nil => simp [alAdd, alGet]
  | cons p rest ih =>
    obtain ⟨k', x⟩ := p
    by_cases hk : k' = k
    · subst hk; simp [alAdd, alGet]
    · simp [alAdd, alGet, hk, ih]

theorem alGet_alAdd_ne (m : List (String × Int)) (k k' : String) (d : Int)
    (h : k ≠ k') : alGet (alAdd m k d) k' = alGet m k' := by
  induction m with
  | nil => simp [alAdd, alGet, h]
  | cons p rest ih =>
    obtain ⟨k'', x⟩ := p
    by_cases hk : k'' = k
    · subst hk; simp [alAdd, alGet, h]
    · by_cases hk' : k'' = k'
      · subst hk'; simp [alAdd, alGet, hk]
      · simp [alAdd, alGet, hk, hk', ih]

theorem alAdd_nonneg (m : List (String × Int)) (k : String) (d : Int)
    (hm : ∀ p ∈ m, 0 ≤ p.2) (hd : 0 ≤ d) : ∀ p ∈ alAdd m k d, 0 ≤ p.2 := by
  induction m with
  | nil =>
    intro p hp
    simp only [alAdd, List.mem_singleton] at hp
    rw [hp]
    exact hd
  | cons q rest ih =>
    obtain ⟨k', x⟩ := q
    intro p hp
    by_cases hk : k' = k
    · simp only [alAdd, if_pos hk] at hp
      rcases List.mem_cons.mp hp with hp | hp
      · have hx : (0 : Int) ≤ x := hm (k', x) (List.mem_cons_self _ _)
        rw [hp]
        simpa using add_nonneg hx hd
      · exact hm p (List.mem_cons_of_mem _ hp)
    · simp only [alAdd, if_neg hk] at hp
      rcases List.mem_cons.mp hp with hp | hp
      · rw [hp]
        exact hm (k', x) (List.mem_cons_self _ _)
      · exact ih (fun r hr => hm r (List.mem_cons_of_mem _ hr)) p hp

theorem decideOrder_of_buy (pref : ClientPref) (stock : Stock)
    (h : buyTrigger pref stock) : decideOrder pref stock = some OrderType.buying := by
  rw [decideOrder_eq, if_pos h]

theorem decideOrder_of_sell (pref : ClientPref) (stock : Stock)
    (h : sellTrigger pref stock) : decideOrder pref stock = some OrderType.selling := by
  have hnb : ¬ buyTrigger pref stock := by
    rintro ⟨-, hlt⟩
    exact absurd h.2 (by omega)
  rw [decideOrder_eq, if_neg hnb, if_pos h]

theorem decideOrder_of_none (pref : ClientPref) (stock : Stock)
    (hb : ¬ buyTrigger pref stock) (hs : ¬ sellTrigger pref stock) :
    decideOrder pref stock = none := by
  rw [decideOrder_eq, if_neg hb, if_neg hs]

theorem decideOrder_selling_sellTrigger (pref : ClientPref) (stock : Stock)
    (h : decideOrder pref stock = some OrderType.selling) : sellTrigger pref stock := by
  rw [decideOrder_eq] at h
  split_ifs at h with h1 h2
  · simp at h
  · exact h2

/-- Full reduction of one client's processing on an evaluated tick: with the
stock classified and the skip guard false, the result is determined by the
Buy and Sell triggers. -/
theorem processClient_eq (stock : Stock) (sty : StockType) (q : String → Int)
    (c : String) (pref : ClientPref) (st : BrokerState)
    (hty : stock_type stock.name = some sty)
    (hskip : skipClient sty pref (stock.v - stock.prev_v) = false) :
    processClient stock q (c, pref) st =
      if buyTrigger pref stock then some ⟨alAdd st.counts c 1, st.earnings⟩
      else if sellTrigger pref stock then
        some ⟨alAdd st.counts c 1, alAdd st.earnings c (q c * (stock.v - stock.prev_v))⟩
      else some st := by
  unfold processClient
  rw [hty]
  simp only [hskip, Bool.false_eq_true, if_false, decideOrder_eq]
  split_ifs with h1 h2 <;> simp

/-- The demonstration roster for the transaction-limit violation: client A
trades Tech, client B trades Food, so Tech ticks keep arriving for A while
B's count keeps the worker loop alive. -/
def limitDemoPrefs : List (String × ClientPref) :=
  [("A", ⟨StockType.Tech, "Market", 0, 0⟩), ("B", ⟨StockType.Food, "Market", 0, 0⟩)]

/-- Two Tech price-decrease updates for the transaction-limit demonstration. -/
def limitDemoMsgs : List (Stock × (String → Int)) :=
  [(⟨"AMZN", 180, 200⟩, fun _ => 50), (⟨"AMZN", 160, 180⟩, fun _ => 50)]

/-- C1: the claim says the name-to-sector table covers every instrument in
the initial registry. It does not: the registry instruments "NOW", "PLTR"
and "PER" are absent from the table, so classifying them hits the
`unreachable!()` fatal branch (embedded as `none`). -/
theorem c1_registry_names_hit_fatal_branch :
    ((initialRegistry.filter (fun s => (stock_type s.name).isNone)).map (fun s => s.name) =
      ["NOW", "PLTR", "PER"]) ∧
    "NOW" ∈ initialRegistry.map (fun s => s.name) ∧ stock_type "NOW" = none := by
  decide

/-- C2: the claim says a client's transaction count never exceeds the
configured limit. It can: with limit 1 and roster `limitDemoPrefs`, two
Tech price-decrease ticks drive client A's count to 2, because the
post-increment `if *count >= transaction_limit { continue; }` is a no-op
and client B's count of 0 keeps the worker loop running. -/
theorem c2_count_exceeds_limit :
    (runLoop 1 limitDemoPrefs limitDemoMsgs (initState limitDemoPrefs)).map
        (fun st => alGet st.counts "A") = some (some 2) ∧ (1 : Int) < 2 := by
  decide

/-- C3: on an evaluated tick (classified stock, skip guard false), an order
is placed with side Buy exactly under the spec's Buy trigger, with side
Sell (crediting `quantity * priceChange` of earnings) exactly under the
spec's Sell trigger, and no order is placed when neither trigger holds. -/
theorem c3_order_trigger_characterization (stock : Stock) (sty : StockType)
    (q : String → Int) (c : String) (pref : ClientPref) (st : BrokerState)
    (hty : stock_type stock.name = some sty)
    (hskip : skipClient sty pref (stock.v - stock.prev_v) = false) :
    (buyTrigger pref stock →
        processClient stock q (c, pref) st = some ⟨alAdd st.counts c 1, st.earnings⟩) ∧
    (sellTrigger pref stock →
        processClient stock q (c, pref) st =
          some ⟨alAdd st.counts c 1, alAdd st.earnings c (q c * (stock.v - stock.prev_v))⟩) ∧
    (¬ buyTrigger pref stock → ¬ sellTrigger pref stock →
        processClient stock q (c, pref) st = some st) := by
  refine ⟨fun hb => ?_, fun hs => ?_, fun hb hs => ?_⟩ <;>
    rw [processClient_eq stock sty q c pref st hty hskip]
  · rw [if_pos hb]
  · have hnb : ¬ buyTrigger pref stock := by
      rintro ⟨-, hlt⟩
      exact absurd hs.2 (by omega)
    rw [if_neg hnb, if_pos hs]
  · rw [if_neg hb, if_neg hs]

/-- Witness for C3: a Market Tech client on a rising AMZN tick places a
sell order and is credited the quantity times the price change. -/
theorem c3_order_trigger_witness :
    processClient ⟨"AMZN", 230, 200⟩ (fun _ => 50) ("Sara", ⟨StockType.Tech, "Market", 0, 0⟩)
        ⟨[("Sara", 0)], []⟩ =
      some ⟨[("Sara", 1)], [("Sara", 1500)]⟩ :=
  (c3_order_trigger_characterization ⟨"AMZN", 230, 200⟩ StockType.Tech (fun _ => 50) "Sara"
    ⟨StockType.Tech, "Market", 0, 0⟩ ⟨[("Sara", 0)], []⟩ (by decide) (by decide)).2.1 (by decide)

/-- C4: with the sector matching, a client whose category is "Market" or
"Limit" is skipped exactly when the category is "Limit" and the price
change lies strictly inside the open interval
(-min_change_buy, min_change_sell). -/
theorem c4_skip_iff (sty : StockType) (pref : ClientPref) (pc : Int)
    (hmatch : sty = pref.stockType)
    (hcat : pref.orderCategory = "Market" ∨ pref.orderCategory = "Limit") :
    skipClient sty pref pc = true ↔
      pref.orderCategory = "Limit" ∧
        -pref.min_change_buy < pc ∧ pc < pref.min_change_sell := by
  have hml : ("Market" : String) ≠ "Limit" := by decide
  have hlm : ("Limit" : String) ≠ "Market" := by decide
  unfold skipClient
  rcases hcat with hcat | hcat <;> simp [hmatch, hcat, hml, hlm]

/-- Witness for C4: with min_change_buy = 25 and min_change_sell = 40, a
Limit client is skipped at price change 10 but evaluated at -25 and 40. -/
theorem c4_skip_witness :
    skipClient StockType.Food ⟨StockType.Food, "Limit", 25, 40⟩ 10 = true ∧
    skipClient StockType.Food ⟨StockType.Food, "Limit", 25, 40⟩ (-25) = false ∧
    skipClient StockType.Food ⟨StockType.Food, "Limit", 25, 40⟩ 40 = false :=
  ⟨(c4_skip_iff StockType.Food ⟨StockType.Food, "Limit", 25, 40⟩ 10 (by decide)
      (Or.inr (by decide))).mpr (by decide),
   by decide, by decide⟩

/-- C5: after the per-instrument tick update, previousValue equals the
pre-tick currentValue, and the delta currentValue - previousValue is the
random draw, lying in [-40, 60]. -/
theorem c5_update_prev_and_delta (s : Stock) (delta : Int)
    (hlo : -40 ≤ delta) (hhi : delta ≤ 60) :
    (updateStock s delta).prev_v = s.v ∧
      -40 ≤ (updateStock s delta).v - (updateStock s delta).prev_v ∧
      (updateStock s delta).v - (updateStock s delta).prev_v ≤ 60 := by
  unfold updateStock
  refine ⟨rfl, ?_, ?_⟩ <;> simp <;> omega

/-- Witness for C5: the AMZN instrument after a +30 draw. -/
theorem c5_update_witness :
    (updateStock ⟨"AMZN", 200, 200⟩ 30).prev_v = 200 ∧
      -40 ≤ (updateStock ⟨"AMZN", 200, 200⟩ 30).v - (updateStock ⟨"AMZN", 200, 200⟩ 30).prev_v ∧
      (updateStock ⟨"AMZN", 200, 200⟩ 30).v - (updateStock ⟨"AMZN", 200, 200⟩ 30).prev_v ≤ 60 :=
  c5_update_prev_and_delta ⟨"AMZN", 200, 200⟩ 30 (by decide) (by decide)

/-- C6: a Sell order credits exactly `quantity * (currentValue -
previousValue)` to the selling client's cumulative earnings and leaves
every other client's earnings untouched. -/
theorem c6_sell_adds_quantity_times_delta (stock : Stock) (sty : StockType)
    (q : String → Int) (c : String) (pref : ClientPref) (st : BrokerState)
    (hty : stock_type stock.name = some sty)
    (hskip : skipClient sty pref (stock.v - stock.prev_v) = false)
    (hsell : sellTrigger pref stock) :
    processClient stock q (c, pref) st =
        some ⟨alAdd st.counts c 1, alAdd st.earnings c (q c * (stock.v - stock.prev_v))⟩ ∧
    alGet (alAdd st.earnings c (q c * (stock.v - stock.prev_v))) c =
        some ((alGet st.earnings c).getD 0 + q c * (stock.v - stock.prev_v)) ∧
    ∀ c', c ≠ c' →
      alGet (alAdd st.earnings c (q c * (stock.v - stock.prev_v))) c' = alGet st.earnings c' := by
  have hnb : ¬ buyTrigger pref stock := by
    rintro ⟨-, hlt⟩
    exact absurd hsell.2 (by omega)
  refine ⟨?_, alGet_alAdd_self _ _ _, fun c' h => alGet_alAdd_ne _ _ _ _ h⟩
  rw [processClient_eq stock sty q c pref st hty hskip, if_neg hnb, if_pos hsell]

/-- Witness for C6: a Market client on a tick with currentValue 230,
previousValue 200 and quantity 50 is credited 50 * 30 = 1500. -/
theorem c6_sell_witness :
    processClient ⟨"GOOGL", 230, 200⟩ (fun _ => 50) ("Mark", ⟨StockType.Tech, "Market", 0, 0⟩)
        ⟨[("Mark", 0)], []⟩ =
      some ⟨[("Mark", 1)], [("Mark", 1500)]⟩ ∧
    alGet [("Mark", (1500 : Int))] "Mark" = some 1500 := by
  have h := c6_sell_adds_quantity_times_delta ⟨"GOOGL", 230, 200⟩ StockType.Tech (fun _ => 50)
    "Mark" ⟨StockType.Tech, "Market", 0, 0⟩ ⟨[("Mark", 0)], []⟩ (by decide) (by decide) (by decide)
  exact ⟨h.1, h.2.1⟩

theorem processClient_nonneg (stock : Stock) (q : String → Int) (cp : String × ClientPref)
    (st st' : BrokerState) (hq : 10 ≤ q cp.1)
    (hst : ∀ p ∈ st.earnings, 0 ≤ p.2)
    (h : processClient stock q cp st = some st') :
    ∀ p ∈ st'.earnings, 0 ≤ p.2 := by
  unfold processClient at h
  cases hty : stock_type stock.name with
  | none =>
    rw [hty] at h
    exact absurd h (by simp)
  | some sty =>
    simp only [hty] at h
    split_ifs at h with hskip
    · injection h with h
      subst h
      exact hst
    · cases hdo : decideOrder cp.2 stock with
      | none =>
        simp only [hdo] at h
        injection h with h
        subst h
        exact hst
      | some ot =>
        simp only [hdo] at h
        cases ot with
        | buying =>
          simp at h
          subst h
          simpa using hst
        | selling =>
          have hsell := decideOrder_selling_sellTrigger cp.2 stock hdo
          have hpc : (0 : Int) ≤ stock.v - stock.prev_v := by
            have := hsell.2
            omega
          simp at h
          subst h
          simp only []
          exact alAdd_nonneg st.earnings cp.1 _ hst
            (mul_nonneg (by omega) hpc)

theorem processTick_nonneg (stock : Stock) (q : String → Int)
    (prefs : List (String × ClientPref)) (st st' : BrokerState)
    (hq : ∀ c, 10 ≤ q c)
    (hst : ∀ p ∈ st.earnings, 0 ≤ p.2)
    (h : processTick stock q prefs st = some st') :
    ∀ p ∈ st'.earnings, 0 ≤ p.2 := by
  induction prefs generalizing st with
  | nil =>
    unfold processTick at h
    injection h with h
    subst h
    exact hst
  | cons cp rest ih =>
    unfold processTick at h
    cases hpc : processClient stock q cp st with
    | none =>
      rw [hpc] at h
      simp at h
    | some st1 =>
      rw [hpc] at h
      simp only [Option.some_bind] at h
      exact ih st1 (processClient_nonneg stock q cp st st1 (hq cp.1) hst hpc) h

theorem runLoop_nonneg (limit : Int) (prefs : List (String × ClientPref))
    (msgs : List (Stock × (String → Int))) (st st' : BrokerState)
    (hq : ∀ m ∈ msgs, ∀ c, 10 ≤ m.2 c)
    (hst : ∀ p ∈ st.earnings, 0 ≤ p.2)
    (h : runLoop limit prefs msgs st = some st') :
    ∀ p ∈ st'.earnings, 0 ≤ p.2 := by
  induction msgs generalizing st with
  | nil =>
    unfold runLoop at h
    injection h with h
    subst h
    exact hst
  | cons msg rest ih =>
    unfold runLoop at h
    split_ifs at h with hcond
    · cases hpt : processTick msg.1 msg.2 prefs st with
      | none =>
        rw [hpt] at h
        simp at h
      | some st1 =>
        rw [hpt] at h
        simp only [Option.some_bind] at h
        exact ih st1 (fun m hm => hq m (List.mem_cons_of_mem _ hm))
          (processTick_nonneg msg.1 msg.2 prefs st st1
            (hq msg (List.mem_cons_self _ _)) hst hpt) h
    · injection h with h
      subst h
      exact hst

/-- C7: every value in a broker's final earnings map is non-negative: a
sell is placed only when currentValue > previousValue and the drawn
quantity is at least 10, so each sell contribution is non-negative and
cumulative earnings never go negative. -/
theorem c7_earnings_never_negative (limit : Int) (prefs : List (String × ClientPref))
    (msgs : List (Stock × (String → Int))) (st' : BrokerState)
    (hq : ∀ m ∈ msgs, ∀ c, 10 ≤ m.2 c)
    (h : runLoop limit prefs msgs (initState prefs) = some st') :
    allNonnegB st'.earnings = true := by
  rw [allNonnegB_iff]
  exact runLoop_nonneg limit prefs msgs (initState prefs) st' hq
    (by intro p hp; simp [initState] at hp) h

/-- Witness for C7: one Market Tech client after one rising tick holds
earnings 1500 ≥ 0. -/
theorem c7_earnings_witness : allNonnegB [("P", (1500 : Int))] = true :=
  c7_earnings_never_negative 10 [("P", ⟨StockType.Tech, "Market", 0, 0⟩)]
    [(⟨"AMZN", 230, 200⟩, fun _ => 50)] ⟨[("P", 1)], [("P", 1500)]⟩
    (by
      intro m hm c
      rw [List.mem_singleton] at hm
      subst hm
      show (10 : Int) ≤ 50
      norm_num)
    (by decide)

theorem processClient_earnings_frame (stock : Stock) (q : String → Int)
    (cp : String × ClientPref) (st st' : BrokerState) (c : String)
    (hns : cp.1 ≠ c ∨ ¬ sellTrigger cp.2 stock)
    (h : processClient stock q cp st = some st') :
    alGet st'.earnings c = alGet st.earnings c := by
  unfold processClient at h
  cases hty : stock_type stock.name with
  | none =>
    rw [hty] at h
    exact absurd h (by simp)
  | some sty =>
    simp only [hty] at h
    split_ifs at h with hskip
    · injection h with h
      subst h
      rfl
    · cases hdo : decideOrder cp.2 stock with
      | none =>
        simp only [hdo] at h
        injection h with h
        subst h
        rfl
      | some ot =>
        simp only [hdo] at h
        cases ot with
        | buying =>
          simp at h
          subst h
          simp
        | selling =>
          have hsell := decideOrder_selling_sellTrigger cp.2 stock hdo
          rcases hns with hne | hns
          · simp at h
            subst h
            simpa using alGet_alAdd_ne st.earnings cp.1 c _ hne
          · exact absurd hsell hns

theorem processTick_earnings_frame (stock : Stock) (q : String → Int)
    (prefs : List (String × ClientPref)) (st st' : BrokerState) (c : String)
    (hns : ∀ cp ∈ prefs, cp.1 ≠ c ∨ ¬ sellTrigger cp.2 stock)
    (h : processTick stock q prefs st = some st') :
    alGet st'.earnings c = alGet st.earnings c := by
  induction prefs generalizing st with
  | nil =>
    unfold processTick at h
    injection h with h
    subst h
    rfl
  | cons cp rest ih =>
    unfold processTick at h
    cases hpc : processClient stock q cp st with
    | none =>
      rw [hpc] at h
      simp at h
    | some st1 =>
      rw [hpc] at h
      simp only [Option.some_bind] at h
      rw [ih st1 (fun r hr => hns r (List.mem_cons_of_mem _ hr)) h]
      exact processClient_earnings_frame stock q cp st st1 c
        (hns cp (List.mem_cons_self _ _)) hpc

theorem runLoop_earnings_frame (limit : Int) (prefs : List (String × ClientPref))
    (msgs : List (Stock × (String → Int))) (st st' : BrokerState) (c : String)
    (hns : ∀ cp ∈ prefs, ∀ m ∈ msgs, cp.1 ≠ c ∨ ¬ sellTrigger cp.2 m.1)
    (h : runLoop limit prefs msgs st = some st') :
    alGet st'.earnings c = alGet st.earnings c := by
  induction msgs generalizing st with
  | nil =>
    unfold runLoop at h
    injection h with h
    subst h
    rfl
  | cons msg rest ih =>
    unfold runLoop at h
    split_ifs at h with hcond
    · cases hpt : processTick msg.1 msg.2 prefs st with
      | none =>
        rw [hpt] at h
        simp at h
      | some st1 =>
        rw [hpt] at h
        simp only [Option.some_bind] at h
        rw [ih st1 (fun cp hcp m hm => hns cp hcp m (List.mem_cons_of_mem _ hm)) h]
        exact processTick_earnings_frame msg.1 msg.2 prefs st st1 c
          (fun cp hcp => hns cp hcp msg (List.mem_cons_self _ _)) hpt
    · injection h with h
      subst h
      rfl

/-- C8: a client for whom no received update ever satisfies the Sell
trigger (in particular a client who only buys) has no entry in the final
earnings map the worker returns. -/
theorem c8_no_sell_no_entry (limit : Int) (prefs : List (String × ClientPref))
    (msgs : List (Stock × (String → Int))) (c : String)
    (hns : ∀ cp ∈ prefs, ∀ m ∈ msgs, cp.1 ≠ c ∨ ¬ sellTrigger cp.2 m.1)
    (st' : BrokerState)
    (h : runLoop limit prefs msgs (initState prefs) = some st') :
    alGet st'.earnings c = none := by
  rw [runLoop_earnings_frame limit prefs msgs (initState prefs) st' c hns h]
  rfl

/-- Witness for C8: one Market Tech client with transaction limit 1 and a
falling tick at 180 from 200: the buy is recorded (count 1), the worker
stops on the next loop check leaving the second queued update unconsumed,
and the earnings map has no entry for the client. -/
theorem c8_no_sell_witness :
    alGet ([] : List (String × Int)) "C" = none ∧
    alGet [("C", (1 : Int))] "C" = some 1 :=
  ⟨c8_no_sell_no_entry 1 [("C", ⟨StockType.Tech, "Market", 0, 0⟩)]
      [(⟨"AMZN", 180, 200⟩, fun _ => 50), (⟨"AMZN", 150, 180⟩, fun _ => 50)] "C"
      (by decide) ⟨[("C", 1)], []⟩ (by decide),
   by decide⟩

/-- C9: when the channel is closed and empty (no messages remain), the
worker loop terminates at once, returning with its state unchanged; this
is normal termination, not an error, and there is no retry. -/
theorem c9_closed_channel_terminates (limit : Int)
    (prefs : List (String × ClientPref)) (st : BrokerState) :
    runLoop limit prefs [] st = some st := rfl

theorem runTickAux_spec (deltas : Nat → Int) (k : Nat) :
    ∀ (stocks : List Stock) (i : Nat), i ≤ k → k - i < stocks.length →
      (runTickAux deltas k i stocks).1.drop (k - i + 1) = stocks.drop (k - i + 1) ∧
      (runTickAux deltas k i stocks).2.length = k - i ∧
      (runTickAux deltas k i stocks).2 = (runTickAux deltas k i stocks).1.take (k - i) := by
  intro stocks
  induction stocks with
  | nil =>
    intro i _ hlen
    simp at hlen
  | cons s rest ih =>
    intro i hik hlen
    by_cases hlt : i < k
    · have hik' : i + 1 ≤ k := hlt
      have hlen' : k - (i + 1) < rest.length := by
        simp only [List.length_cons] at hlen
        omega
      obtain ⟨ih1, ih2, ih3⟩ := ih (i + 1) hik' hlen'
      have hki : k - i = (k - (i + 1)) + 1 := by omega
      simp only [runTickAux, if_pos hlt]
      refine ⟨?_, ?_, ?_⟩
      · rw [hki]
        simpa using ih1
      · rw [hki]
        simpa using ih2
      · rw [hki]
        simpa using ih3
    · have hik0 : k - i = 0 := by omega
      simp only [runTickAux, if_neg hlt, hik0]
      simp

/-- C10: when the send of the instrument at index k fails (the channel
closed after k successful sends, with k less than the registry size), the
tick is abandoned mid-batch: every instrument after the failing one keeps
both its currentValue and previousValue, and the published snapshots are
exactly the updated instruments before the failing one. -/
theorem c10_failed_send_abandons_batch (deltas : Nat → Int) (k : Nat)
    (stocks : List Stock) (h : k < stocks.length) :
    (runTick deltas k stocks).1.drop (k + 1) = stocks.drop (k + 1) ∧
    (runTick deltas k stocks).2.length = k ∧
    (runTick deltas k stocks).2 = (runTick deltas k stocks).1.take k := by
  have hspec := runTickAux_spec deltas k stocks 0 (Nat.zero_le k) (by simpa using h)
  simpa [runTick] using hspec

/-- Witness for C10: three instruments with the channel closing after one
successful send: the third instrument is untouched and only the first
snapshot is published. -/
theorem c10_failed_send_witness :
    (runTick (fun _ => 5) 1 [⟨"AMZN", 200, 200⟩, ⟨"KO", 310, 310⟩, ⟨"MRK", 280, 280⟩]).1.drop 2 =
      ([⟨"AMZN", 200, 200⟩, ⟨"KO", 310, 310⟩, ⟨"MRK", 280, 280⟩] : List Stock).drop 2 ∧
    (runTick (fun _ => 5) 1 [⟨"AMZN", 200, 200⟩, ⟨"KO", 310, 310⟩, ⟨"MRK", 280, 280⟩]).2.length = 1 ∧
    (runTick (fun _ => 5) 1 [⟨"AMZN", 200, 200⟩, ⟨"KO", 310, 310⟩, ⟨"MRK", 280, 280⟩]).2 =
      (runTick (fun _ => 5) 1 [⟨"AMZN", 200, 200⟩, ⟨"KO", 310, 310⟩, ⟨"MRK", 280, 280⟩]).1.take 1 :=
  c10_failed_send_abandons_batch (fun _ => 5) 1
    [⟨"AMZN", 200, 200⟩, ⟨"KO", 310, 310⟩, ⟨"MRK", 280, 280⟩] (by decide)

end StockSys
